import Mathlib

/-!
Verification of the CSV comment/sentence picker core
(`src/main.tsx`, grouped variant, and the unnamed plain variant).

JavaScript strings are modelled as `List Char`.  The JS whitespace class
(used by `String.prototype.trim` and the regex class in the group
normaliser) is modelled by `isJsWs`; `toLowerCase` is modelled ASCII-wise
by `Char.toLower`.  All definitions are executable so that concrete runs
can be settled by `decide`.
-/

set_option maxHeartbeats 1000000

namespace Picker

abbrev Str := List Char

/-- JS whitespace class: the characters matched by the regex class `\s`
and stripped by `trim` (WhiteSpace plus LineTerminator). -/
def isJsWs (c : Char) : Bool :=
  c = ' ' || c = '\t' || c = '\n' || c = '\r' ||
  c = '\u000B' || c = '\u000C' || c = '\u00A0' || c = '\u1680' ||
  (0x2000 ≤ c.toNat && c.toNat ≤ 0x200A) ||
  c = '\u2028' || c = '\u2029' || c = '\u202F' || c = '\u205F' ||
  c = '\u3000' || c = '\uFEFF'

/-- Model of `String.prototype.toLowerCase` (ASCII part). -/
def jsToLower (s : Str) : Str := s.map Char.toLower

/-- Strip leading JS whitespace. -/
def lstrip (s : Str) : Str := s.dropWhile isJsWs

/-- Strip trailing JS whitespace. -/
def rstrip : Str → Str
  | [] => []
  | c :: t =>
    match rstrip t with
    | [] => if isJsWs c then [] else [c]
    | d :: r => c :: d :: r

/-- Model of `String.prototype.trim`. -/
def jsTrim (s : Str) : Str := rstrip (lstrip s)

/-- Model of `String.prototype.includes`: contiguous substring test. -/
def strIncludes : Str → Str → Bool
  | [], needle => needle.isEmpty
  | c :: t, needle => needle.isPrefixOf (c :: t) || strIncludes t needle

/-- Model of `g.replace(/\s+/g, " ")`: every maximal run of JS whitespace
becomes a single space. -/
def collapseWs : Str → Str
  | [] => []
  | [c] => if isJsWs c then [' '] else [c]
  | c :: d :: t =>
    if isJsWs c then
      if isJsWs d then collapseWs (d :: t) else ' ' :: collapseWs (d :: t)
    else c :: collapseWs (d :: t)

/-- Decimal digits of `n` (most significant first), fuel-driven so that it
is structurally recursive and kernel-reducible. -/
def natToDecAux : Nat → Nat → Str
  | 0, _ => []
  | f + 1, n => if n = 0 then [] else natToDecAux f (n / 10) ++ [Nat.digitChar (n % 10)]

/-- Model of JS number-to-string for the template literal index. -/
def natToDec (n : Nat) : Str := if n = 0 then ['0'] else natToDecAux n n

/-- Model of `Array.prototype.join(",")`. -/
def joinComma (l : List Str) : Str := List.intercalate [','] l

/-!  ### Source embedding: shared helper (both variants)

```
function appendWithSmartSpace(prev, next) {
  if (!prev) return next;
  const needsSpace = !(prev.endsWith(" ") || prev.endsWith("\n") || prev.endsWith("\t"));
  return prev + (needsSpace ? " " : "") + next;
}
```
-/

/-- Model of `String.prototype.endsWith` with a one-character argument. -/
def jsEndsWith (s : Str) (c : Char) : Bool := s.getLast? == some c

def appendWithSmartSpace (prev next : Str) : Str :=
  if prev.isEmpty then next
  else
    let needsSpace := !(jsEndsWith prev ' ' || jsEndsWith prev '\n' || jsEndsWith prev '\t')
    prev ++ (if needsSpace then [' '] else []) ++ next

/-!  ### Source embedding: grouped variant (`src/main.tsx`) -/

def DEFAULT_GROUP : Str := "Ungrouped".toList

/-- `safeStr(v)`: null/undefined cells coerce to the empty string. -/
def safeStr (v : Option Str) : Str := v.getD []

/-- `safeStr(arr[i])`: out-of-range indexing yields undefined, hence `""`. -/
def getCell (arr : List (Option Str)) (i : Nat) : Str := safeStr (arr.getD i none)

/-- `normaliseGroup`: collapse whitespace runs, trim, and substitute the
default group for an empty result. -/
def normaliseGroup (g : Str) : Str :=
  if jsTrim (collapseWs g) = [] then DEFAULT_GROUP else jsTrim (collapseWs g)

structure CommentRow where
  id : Str
  group : Str
  text : Str
  order : Nat
deriving DecidableEq

/-- The first `.map((arr, idx) => ...)` of the grouped import. -/
def mkRowRaw (idx : Nat) (arr : List (Option Str)) : CommentRow :=
  let col0 := jsTrim (getCell arr 0)
  let col1 := jsTrim (getCell arr 1)
  if arr.length ≤ 1 then
    { id := natToDec idx ++ '-' :: col0.take 24
      group := DEFAULT_GROUP
      text := col0
      order := idx }
  else
    let group := normaliseGroup col0
    { id := natToDec idx ++ '-' :: (group.take 18 ++ '-' :: col1.take 18)
      group := group
      text := col1
      order := idx }

/-- The second `.map` of the grouped import. -/
def renormaliseRow (r : CommentRow) : CommentRow :=
  { r with group := normaliseGroup r.group, text := jsTrim r.text }

/-- The full grouped normalization pipeline of `parseCsvFile`'s `complete`
handler: map with index, renormalise, drop rows with empty text. -/
def groupedNormalize (records : List (List (Option Str))) : List CommentRow :=
  (((records.enum.map fun p => mkRowRaw p.1 p.2).map renormaliseRow).filter
    fun r => decide (0 < r.text.length))

def ALL : Str := "ALL".toList

/-- `applyFilters`: group equality filter (unless "ALL"), then
case-insensitive substring filter of the trimmed query over
`group ++ " " ++ text`. -/
def applyFilters (rows : List CommentRow) (nextQuery nextGroup : Str) : List CommentRow :=
  let q := jsToLower (jsTrim nextQuery)
  let out1 := if nextGroup ≠ ALL then rows.filter (fun r => decide (r.group = nextGroup)) else rows
  if q ≠ [] then
    out1.filter fun r => strIncludes (jsToLower (r.group ++ ' ' :: r.text)) q
  else out1

def apos : Char := Char.ofNat 39

def noCommentsMsg : Str := "No comments found in the CSV.".toList

def parseFailMsg : Str :=
  "Couldn".toList ++ apos :: "t parse that CSV. Please check the file format.".toList

def readFailMsg : Str := "Failed to read the CSV file.".toList

def clipboardMsg : Str := "Clipboard copy failed. You can select and copy manually.".toList

def noSentencesMsg : Str := "No sentences found in the CSV.".toList

/-- Outcome handed to `parseCsvFile` by the Papa tokenizer collaborator:
the `error` callback, an exception inside the `complete` handler, or a
successful cell matrix (cells are string-or-null). -/
inductive ImportResult where
  | readError
  | parseException
  | ok (records : List (List (Option Str)))

/-- The grouped component's state fields. -/
structure GState where
  rows : List CommentRow
  filtered : List CommentRow
  selectedId : Option Str
  editorValue : Str
  copied : Bool
  error : Option Str
  fileName : Option Str
  query : Str
  selectedGroup : Str
deriving DecidableEq

/-- Initial `useState` values of the grouped component. -/
def initG : GState :=
  { rows := []
    filtered := []
    selectedId := none
    editorValue := []
    copied := false
    error := none
    fileName := none
    query := []
    selectedGroup := ALL }

/-- `applyFilters` as a state update: recompute `filtered` and clear the
selection when the selected id is no longer visible. -/
def applyFiltersUpd (s : GState) (rows : List CommentRow) (q g : Str) : GState :=
  let out := applyFilters rows q g
  { s with
    filtered := out
    selectedId :=
      match s.selectedId with
      | none => none
      | some i => if out.any fun r => decide (r.id = i) then some i else none }

/-- `parseCsvFile` (grouped): set error to null and the file name first,
then dispatch on the tokenizer outcome. -/
def importStep (s : GState) (name : Str) (res : ImportResult) : GState :=
  let s0 := { s with error := none, fileName := some name }
  match res with
  | .readError => { s0 with error := some readFailMsg }
  | .parseException => { s0 with error := some parseFailMsg }
  | .ok records =>
    let parsed := groupedNormalize records
    if parsed = [] then
      { s0 with
        error := some noCommentsMsg
        rows := []
        filtered := []
        selectedId := none
        editorValue := []
        selectedGroup := ALL
        query := [] }
    else
      { s0 with
        rows := parsed
        selectedGroup := ALL
        query := []
        selectedId := none
        editorValue := []
        copied := false
        filtered := parsed }

/-- `clearAll` (grouped). -/
def clearStep (s : GState) : GState :=
  { s with
    rows := []
    filtered := []
    selectedId := none
    editorValue := []
    fileName := none
    query := []
    selectedGroup := ALL
    error := none }

/-- `onFilterText`. -/
def filterTextStep (s : GState) (val : Str) : GState :=
  applyFiltersUpd { s with query := val } s.rows val s.selectedGroup

/-- `onFilterGroup`. -/
def filterGroupStep (s : GState) (val : Str) : GState :=
  applyFiltersUpd { s with selectedGroup := val } s.rows s.query val

/-- `onRowClick`. -/
def rowClickStep (s : GState) (r : CommentRow) : GState :=
  { s with
    selectedId := some r.id
    editorValue := appendWithSmartSpace s.editorValue r.text
    copied := false }

/-- The textarea's `onChange`: the buffer is freely editable. -/
def editorInputStep (s : GState) (v : Str) : GState := { s with editorValue := v }

/-- `copyToClipboard` success. -/
def copyOkStep (s : GState) : GState := { s with copied := true }

/-- `copyToClipboard` failure. -/
def copyFailStep (s : GState) : GState := { s with error := some clipboardMsg }

/-- The 1.2 s timeout reverting the copied flag. -/
def copyResetStep (s : GState) : GState := { s with copied := false }

/-- States reachable by the grouped component.  Row clicks are only ever
dispatched from rendered rows, i.e. members of the current visible subset. -/
inductive ReachableG : GState → Prop where
  | init : ReachableG initG
  | importF (s : GState) (name : Str) (res : ImportResult) :
      ReachableG s → ReachableG (importStep s name res)
  | clear (s : GState) : ReachableG s → ReachableG (clearStep s)
  | ftext (s : GState) (v : Str) : ReachableG s → ReachableG (filterTextStep s v)
  | fgroup (s : GState) (v : Str) : ReachableG s → ReachableG (filterGroupStep s v)
  | click (s : GState) (r : CommentRow) :
      ReachableG s → r ∈ s.filtered → ReachableG (rowClickStep s r)
  | edit (s : GState) (v : Str) : ReachableG s → ReachableG (editorInputStep s v)
  | copyOk (s : GState) : ReachableG s → ReachableG (copyOkStep s)
  | copyFail (s : GState) : ReachableG s → ReachableG (copyFailStep s)
  | copyReset (s : GState) : ReachableG s → ReachableG (copyResetStep s)

/-!  ### Source embedding: plain variant (`src/unnamed/part_000`) -/

/-- The plain import pipeline: join cells with commas, trim, drop empties. -/
def plainNormalize (records : List (List (Option Str))) : List Str :=
  (((records.map fun arr => joinComma (arr.map safeStr)).map jsTrim).filter
    fun s => decide (0 < s.length))

/-- The plain component's state fields. -/
structure PState where
  sentences : List Str
  filtered : List Str
  selectedIndex : Option Nat
  editorValue : Str
  copied : Bool
  error : Option Str
  fileName : Option Str
  query : Str
deriving DecidableEq

/-- Initial `useState` values of the plain component. -/
def initP : PState :=
  { sentences := []
    filtered := []
    selectedIndex := none
    editorValue := []
    copied := false
    error := none
    fileName := none
    query := [] }

/-- `parseCsvFile` (plain).  Note: the zero-row and success branches do not
touch `query`. -/
def plainImportStep (s : PState) (name : Str) (res : ImportResult) : PState :=
  let s0 := { s with error := none, fileName := some name }
  match res with
  | .readError => { s0 with error := some readFailMsg }
  | .parseException => { s0 with error := some parseFailMsg }
  | .ok records =>
    let rows := plainNormalize records
    if rows = [] then
      { s0 with
        error := some noSentencesMsg
        sentences := []
        filtered := []
        selectedIndex := none
        editorValue := [] }
    else
      { s0 with
        sentences := rows
        filtered := rows
        selectedIndex := none
        editorValue := [] }

/-- `onFilter` (plain): empty query restores the full list and returns
early; otherwise filter case-insensitively and clear the selection. -/
def plainFilterStep (s : PState) (val : Str) : PState :=
  let s1 := { s with query := val }
  if val = [] then { s1 with filtered := s.sentences }
  else
    { s1 with
      filtered := s.sentences.filter fun t => strIncludes (jsToLower t) (jsToLower val)
      selectedIndex := none }

/-- `onSentenceClick`. -/
def plainClickStep (s : PState) (idx : Nat) : PState :=
  { s with
    selectedIndex := some idx
    editorValue := appendWithSmartSpace s.editorValue ((s.filtered.get? idx).getD [])
    copied := false }

/-- `clearAll` (plain). -/
def plainClearStep (s : PState) : PState :=
  { s with
    sentences := []
    filtered := []
    selectedIndex := none
    editorValue := []
    fileName := none
    query := []
    error := none }

/-!  ### Spec-side definitions (worded from the specification) -/

/-- Spec-side grouped row shape: at most one cell gives the sentinel default
group and the trimmed cell as text; two or more cells give cell 0 with
whitespace runs collapsed and trimmed (sentinel if empty) as group and
trimmed cell 1 as text; further cells are ignored. -/
def specGroupedRow (arr : List (Option Str)) : Str × Str :=
  if arr.length ≤ 1 then (DEFAULT_GROUP, jsTrim (getCell arr 0))
  else
    (let g := jsTrim (collapseWs (getCell arr 0))
     if g = [] then DEFAULT_GROUP else g,
     jsTrim (getCell arr 1))

/-- Spec-side grouped import: one row per record in order, rows with empty
text dropped. -/
def specGroupedRows (records : List (List (Option Str))) : List (Str × Str) :=
  (records.map specGroupedRow).filter fun p => decide (p.2 ≠ [])

/-- Spec-side plain sentence: null cells coerce to the empty string, cells
joined with a comma separator, trimmed. -/
def specPlainSentence (arr : List (Option Str)) : Str :=
  jsTrim (joinComma (arr.map safeStr))

/-- The visible subset as literally worded by the claim C3: group equality
when the chosen group is not "ALL" AND case-insensitive substring match of
the (untrimmed) query against the concatenation of group and text. -/
def claimedVisibleG (rows : List CommentRow) (q g : Str) : List CommentRow :=
  rows.filter fun r =>
    (decide (g = ALL) || decide (r.group = g)) &&
      strIncludes (jsToLower (r.group ++ r.text)) (jsToLower q)

/-!  ### Concrete data used by witnesses and counterexamples -/

def fileA : Str := "a.csv".toList

def fileB : Str := "b.csv".toList

/-- The row produced by importing the single record `["A","B"]`. -/
def rowAB : CommentRow :=
  { id := "0-A-B".toList, group := ['A'], text := ['B'], order := 0 }

/-- Grouped state after importing the single record `["A","B"]`. -/
def s8 : GState := importStep initG fileA (.ok [[some ['A'], some ['B']]])

/-- Grouped state after additionally clicking the sole visible row. -/
def s4 : GState := rowClickStep s8 rowAB

/-- Plain state after importing the single record `["o"]`. -/
def p8 : PState := plainImportStep initP fileA (.ok [[some ['o']]])

/-- A grouped row with group "A" and text "B" for the C3 counterexample. -/
def cRow : CommentRow := { id := ['x'], group := ['A'], text := ['B'], order := 0 }

/-- Plain states for the C5 counterexample: import, set a query, then load
a CSV normalizing to zero rows. -/
def s5a : PState := plainImportStep initP fileA (.ok [[some ['a']]])

def s5b : PState := plainFilterStep s5a ['q']

def s5c : PState := plainImportStep s5b fileB (.ok [[some [' ']]])

/-- Grouped state for the C6 counterexample: a successful import. -/
def s6 : GState := importStep initG fileA (.ok [[some ['x']]])

/-! ### Whitespace toolkit -/

theorem lstrip_cons (c : Char) (t : Str) :
    lstrip (c :: t) = if isJsWs c then lstrip t else c :: t := by
  simp [lstrip, List.dropWhile_cons]

theorem hd_lstrip : ∀ (l : Str) {c : Char} {t : Str}, lstrip l = c :: t → isJsWs c = false := by
  intro l
  induction l with
  | nil => intro c t h; simp [lstrip] at h
  | cons a l ih =>
    intro c t h
    rw [lstrip_cons] at h
    cases ha : isJsWs a with
    | true => rw [ha, if_pos rfl] at h; exact ih h
    | false =>
      rw [ha] at h
      simp only [Bool.false_eq_true, if_false] at h
      injection h with h1 h2
      subst h1
      exact ha

theorem lstrip_noLead {l : Str} (h : ∀ c t, l = c :: t → isJsWs c = false) :
    lstrip l = l := by
  cases l with
  | nil => rfl
  | cons a t => rw [lstrip_cons, h a t rfl]; simp

theorem lstrip_idem (l : Str) : lstrip (lstrip l) = lstrip l := by
  apply lstrip_noLead
  intro c t h
  exact hd_lstrip l h

theorem allWs_lstrip : ∀ (l : Str), (∀ c ∈ l, isJsWs c = true) → lstrip l = [] := by
  intro l
  induction l with
  | nil => intro _; rfl
  | cons a t ih =>
    intro h
    rw [lstrip_cons, h a (by simp), if_pos rfl]
    exact ih fun c hc => h c (by simp [hc])

theorem rstrip_cons_nil {t : Str} (h : rstrip t = []) (c : Char) :
    rstrip (c :: t) = if isJsWs c then [] else [c] := by
  simp only [rstrip, h]

theorem rstrip_cons_cons {t : Str} {d : Char} {r : Str} (h : rstrip t = d :: r) (c : Char) :
    rstrip (c :: t) = c :: d :: r := by
  simp only [rstrip, h]

theorem rstrip_nil_allWs : ∀ (l : Str), rstrip l = [] → ∀ c ∈ l, isJsWs c = true := by
  intro l
  induction l with
  | nil => simp
  | cons a t ih =>
    intro h c hc
    cases hr : rstrip t with
    | nil =>
      rw [rstrip_cons_nil hr] at h
      cases ha : isJsWs a with
      | true =>
        rcases List.mem_cons.mp hc with rfl | hc'
        · exact ha
        · exact ih hr c hc'
      | false => rw [ha] at h; simp at h
    | cons d r => rw [rstrip_cons_cons hr] at h; simp at h

theorem rstrip_head (c : Char) (t : Str) :
    rstrip (c :: t) = [] ∨ ∃ u, rstrip (c :: t) = c :: u := by
  cases hr : rstrip t with
  | nil =>
    rw [rstrip_cons_nil hr]
    cases ha : isJsWs c with
    | true => exact Or.inl (by simp)
    | false => exact Or.inr ⟨[], by simp⟩
  | cons d r => exact Or.inr ⟨d :: r, rstrip_cons_cons hr c⟩

theorem rstrip_idem : ∀ (l : Str), rstrip (rstrip l) = rstrip l := by
  intro l
  induction l with
  | nil => rfl
  | cons a t ih =>
    cases hr : rstrip t with
    | nil =>
      rw [rstrip_cons_nil hr]
      cases ha : isJsWs a with
      | true => simp [rstrip]
      | false =>
        simp only [Bool.false_eq_true, if_false]
        rw [rstrip_cons_nil (show rstrip [] = [] from rfl), ha]
        simp
    | cons d r =>
      rw [rstrip_cons_cons hr]
      rw [hr] at ih
      rw [rstrip_cons_cons ih]

theorem lstrip_rstrip : ∀ (l : Str), lstrip (rstrip l) = rstrip (lstrip l) := by
  intro l
  induction l with
  | nil => rfl
  | cons a t ih =>
    cases ha : isJsWs a with
    | true =>
      have h1 : lstrip (a :: t) = lstrip t := by rw [lstrip_cons, ha, if_pos rfl]
      cases hr : rstrip t with
      | nil =>
        rw [rstrip_cons_nil hr, ha, if_pos rfl, h1,
          allWs_lstrip t (rstrip_nil_allWs t hr)]
        rfl
      | cons d r =>
        have h2 : lstrip (a :: d :: r) = lstrip (d :: r) := by
          rw [lstrip_cons, ha, if_pos rfl]
        rw [rstrip_cons_cons hr, h1, h2, ← hr, ih]
    | false =>
      have hstep : lstrip (a :: t) = a :: t := by rw [lstrip_cons, ha]; simp
      rw [hstep]
      cases hr : rstrip t with
      | nil =>
        rw [rstrip_cons_nil hr, ha]
        simp only [Bool.false_eq_true, if_false]
        rw [lstrip_cons, ha]
        simp
      | cons d r =>
        rw [rstrip_cons_cons hr, lstrip_cons, ha]
        simp

theorem jsTrim_idem (l : Str) : jsTrim (jsTrim l) = jsTrim l := by
  unfold jsTrim
  rw [lstrip_rstrip, lstrip_idem, rstrip_idem]

theorem ws_space : isJsWs ' ' = true := by decide

theorem collapse_cons_not {c : Char} (h : isJsWs c = false) (x : Char) (xs : Str) :
    collapseWs (c :: x :: xs) = c :: collapseWs (x :: xs) := by
  simp [collapseWs, h]

theorem collapse_cons_ws_ws {c d : Char} (hc : isJsWs c = true) (hd : isJsWs d = true)
    (t : Str) : collapseWs (c :: d :: t) = collapseWs (d :: t) := by
  simp [collapseWs, hc, hd]

theorem collapse_cons_ws_not {c d : Char} (hc : isJsWs c = true) (hd : isJsWs d = false)
    (t : Str) : collapseWs (c :: d :: t) = ' ' :: collapseWs (d :: t) := by
  simp [collapseWs, hc, hd]

theorem collapse_head : ∀ (t : Str) (c : Char),
    ∃ u, collapseWs (c :: t) = (if isJsWs c then ' ' else c) :: u := by
  intro t
  induction t with
  | nil =>
    intro c
    cases ha : isJsWs c with
    | true => exact ⟨[], by simp [collapseWs, ha]⟩
    | false => exact ⟨[], by simp [collapseWs, ha]⟩
  | cons d t ih =>
    intro c
    cases ha : isJsWs c with
    | false => exact ⟨collapseWs (d :: t), by simp [collapse_cons_not ha]⟩
    | true =>
      cases hd : isJsWs d with
      | false => exact ⟨collapseWs (d :: t), by simp [collapse_cons_ws_not ha hd]⟩
      | true =>
        obtain ⟨u, hu⟩ := ih d
        rw [hd, if_pos rfl] at hu
        exact ⟨u, by rw [collapse_cons_ws_ws ha hd, hu]; simp⟩

theorem allWs_collapse : ∀ (t : Str) (c : Char),
    (∀ x ∈ c :: t, isJsWs x = true) → collapseWs (c :: t) = [' '] := by
  intro t
  induction t with
  | nil => intro c h; simp [collapseWs, h c (by simp)]
  | cons d t ih =>
    intro c h
    rw [collapse_cons_ws_ws (h c (by simp)) (h d (by simp))]
    exact ih d fun x hx => h x (List.mem_cons_of_mem c hx)

theorem collapse_idem : ∀ (l : Str), collapseWs (collapseWs l) = collapseWs l := by
  intro l
  induction l with
  | nil => rfl
  | cons c t ih =>
    cases t with
    | nil =>
      cases hc : isJsWs c with
      | true => simp [collapseWs, hc, ws_space]
      | false => simp [collapseWs, hc]
    | cons d t' =>
      cases hc : isJsWs c with
      | false =>
        rw [collapse_cons_not hc]
        obtain ⟨u, hu⟩ := collapse_head t' d
        rw [hu, collapse_cons_not hc, ← hu, ih]
      | true =>
        cases hd : isJsWs d with
        | true => rw [collapse_cons_ws_ws hc hd, ih]
        | false =>
          rw [collapse_cons_ws_not hc hd]
          obtain ⟨u, hu⟩ := collapse_head t' d
          rw [hd] at hu
          simp only [Bool.false_eq_true, if_false] at hu
          rw [hu, collapse_cons_ws_not ws_space hd, ← hu, ih]

theorem rstrip_cons_congr {y1 y2 : Str} (h : rstrip y1 = rstrip y2) (c : Char) :
    rstrip (c :: y1) = rstrip (c :: y2) := by
  cases hr : rstrip y2 with
  | nil => rw [rstrip_cons_nil (h.trans hr), rstrip_cons_nil hr]
  | cons d r => rw [rstrip_cons_cons (h.trans hr), rstrip_cons_cons hr]

theorem rstrip_head_eq {d : Char} {t : Str} {x : Char} {r : Str}
    (h : rstrip (d :: t) = x :: r) : x = d := by
  rcases rstrip_head d t with h0 | ⟨u, hu⟩
  · rw [h0] at h; cases h
  · rw [hu] at h; injection h with h1 _; exact h1.symm

theorem rstrip_collapse_rstrip : ∀ (l : Str),
    rstrip (collapseWs (rstrip l)) = rstrip (collapseWs l) := by
  intro l
  induction l with
  | nil => rfl
  | cons c t ih =>
    cases t with
    | nil =>
      cases hc : isJsWs c with
      | true => simp [rstrip, collapseWs, hc, ws_space]
      | false => simp [rstrip, collapseWs, hc]
    | cons d t' =>
      cases hr : rstrip (d :: t') with
      | nil =>
        have hall := rstrip_nil_allWs _ hr
        have hd : isJsWs d = true := hall d (by simp)
        cases hc : isJsWs c with
        | true =>
          rw [rstrip_cons_nil hr, hc, if_pos rfl]
          rw [allWs_collapse (d :: t') c ?h1]
          case h1 =>
            intro x hx
            rcases List.mem_cons.mp hx with rfl | hx'
            · exact hc
            · exact hall x hx'
          simp [collapseWs, rstrip, ws_space]
        | false =>
          rw [rstrip_cons_nil hr, hc]
          simp only [Bool.false_eq_true, if_false]
          rw [collapse_cons_not hc, allWs_collapse t' d hall]
          simp [collapseWs, rstrip, hc, ws_space]
      | cons e r =>
        have hed : e = d := rstrip_head_eq hr
        subst hed
        rw [rstrip_cons_cons hr]
        cases hc : isJsWs c with
        | false =>
          rw [collapse_cons_not hc, collapse_cons_not hc]
          refine rstrip_cons_congr ?_ c
          rw [← hr, ih]
        | true =>
          cases hd : isJsWs e with
          | true =>
            rw [collapse_cons_ws_ws hc hd, collapse_cons_ws_ws hc hd, ← hr, ih]
          | false =>
            rw [collapse_cons_ws_not hc hd, collapse_cons_ws_not hc hd]
            refine rstrip_cons_congr ?_ ' '
            rw [← hr, ih]

theorem lstrip_collapse_lstrip : ∀ (l : Str),
    lstrip (collapseWs (lstrip l)) = lstrip (collapseWs l) := by
  intro l
  induction l with
  | nil => rfl
  | cons c t ih =>
    cases hc : isJsWs c with
    | false => rw [lstrip_cons, hc]; simp
    | true =>
      rw [lstrip_cons, hc, if_pos rfl]
      cases t with
      | nil => simp [collapseWs, lstrip, hc, ws_space]
      | cons d t' =>
        cases hd : isJsWs d with
        | true => rw [collapse_cons_ws_ws hc hd, ih]
        | false =>
          rw [collapse_cons_ws_not hc hd, lstrip_cons ' ', ws_space, if_pos rfl]
          rw [lstrip_cons, hd]
          simp

theorem lstrip_collapse_noLead : ∀ (u : Str),
    (∀ c t, u = c :: t → isJsWs c = false) → lstrip (collapseWs u) = collapseWs u := by
  intro u h
  cases u with
  | nil => rfl
  | cons c t =>
    obtain ⟨v, hv⟩ := collapse_head t c
    rw [h c t rfl] at hv
    simp only [Bool.false_eq_true, if_false] at hv
    rw [hv, lstrip_cons, h c t rfl]
    simp

theorem jsTrim_collapse_jsTrim : ∀ (l : Str),
    jsTrim (collapseWs (jsTrim l)) = jsTrim (collapseWs l) := by
  intro l
  show rstrip (lstrip (collapseWs (rstrip (lstrip l)))) = rstrip (lstrip (collapseWs l))
  have hu : ∀ c t, lstrip l = c :: t → isJsWs c = false := fun c t h => hd_lstrip l h
  have stepA : lstrip (collapseWs (rstrip (lstrip l))) = collapseWs (rstrip (lstrip l)) := by
    apply lstrip_collapse_noLead
    intro c t h
    cases hl : lstrip l with
    | nil => rw [hl] at h; cases h
    | cons c' t' =>
      rw [hl] at h
      have : c = c' := by
        rcases rstrip_head c' t' with h0 | ⟨u, hu'⟩
        · rw [h0] at h; cases h
        · rw [hu'] at h; injection h with h1 _; exact h1.symm
      rw [this]
      exact hd_lstrip l hl
  have stepB : lstrip (collapseWs (lstrip l)) = collapseWs (lstrip l) := by
    apply lstrip_collapse_noLead
    intro c t h
    exact hu c t h
  rw [stepA, rstrip_collapse_rstrip, ← lstrip_collapse_lstrip, stepB]

theorem normaliseGroup_jsTrim (g : Str) : normaliseGroup (jsTrim g) = normaliseGroup g := by
  unfold normaliseGroup
  rw [jsTrim_collapse_jsTrim]

theorem normaliseGroup_default : normaliseGroup DEFAULT_GROUP = DEFAULT_GROUP := by decide

theorem normaliseGroup_idem (g : Str) :
    normaliseGroup (normaliseGroup g) = normaliseGroup g := by
  by_cases h : jsTrim (collapseWs g) = []
  · have h1 : normaliseGroup g = DEFAULT_GROUP := by unfold normaliseGroup; rw [if_pos h]
    rw [h1, normaliseGroup_default]
  · have h1 : normaliseGroup g = jsTrim (collapseWs g) := by
      unfold normaliseGroup; rw [if_neg h]
    have h2 : jsTrim (collapseWs (jsTrim (collapseWs g))) = jsTrim (collapseWs g) := by
      rw [jsTrim_collapse_jsTrim, collapse_idem]
    rw [h1]
    unfold normaliseGroup
    rw [h2, if_neg h]

/-! ### Decimal id toolkit -/

theorem natToDecAux_eq : ∀ (f n : Nat), n ≤ f →
    natToDecAux f n = ((Nat.digits 10 n).map Nat.digitChar).reverse := by
  intro f
  induction f with
  | zero =>
    intro n hn
    have h0 : n = 0 := Nat.le_zero.mp hn
    subst h0
    simp [natToDecAux]
  | succ f ih =>
    intro n hn
    by_cases h0 : n = 0
    · subst h0; simp [natToDecAux]
    · rw [natToDecAux, if_neg h0]
      have hlt : n / 10 < n := Nat.div_lt_self (Nat.pos_of_ne_zero h0) (by norm_num)
      rw [ih (n / 10) (by omega)]
      rw [Nat.digits_def' (by norm_num : (1 : Nat) < 10) (Nat.pos_of_ne_zero h0)]
      simp

theorem natToDec_eq (n : Nat) :
    natToDec n = if n = 0 then ['0'] else ((Nat.digits 10 n).map Nat.digitChar).reverse := by
  unfold natToDec
  by_cases h : n = 0
  · rw [if_pos h, if_pos h]
  · rw [if_neg h, if_neg h, natToDecAux_eq n n le_rfl]

theorem digitChar_inj : ∀ a, a < 10 → ∀ b, b < 10 →
    Nat.digitChar a = Nat.digitChar b → a = b := by decide

theorem map_digitChar_inj : ∀ (ds es : List Nat), (∀ d ∈ ds, d < 10) → (∀ e ∈ es, e < 10) →
    ds.map Nat.digitChar = es.map Nat.digitChar → ds = es := by
  intro ds
  induction ds with
  | nil =>
    intro es _ _ h
    cases es with
    | nil => rfl
    | cons b es => simp at h
  | cons a ds ih =>
    intro es hd he h
    cases es with
    | nil => simp at h
    | cons b es =>
      simp only [List.map_cons, List.cons.injEq] at h
      obtain ⟨h1, h2⟩ := h
      have hab : a = b := digitChar_inj a (hd a (by simp)) b (he b (by simp)) h1
      subst hab
      rw [ih es (fun d hm => hd d (by simp [hm])) (fun e hm => he e (by simp [hm])) h2]

theorem natToDec_inj : ∀ {m n : Nat}, natToDec m = natToDec n → m = n := by
  intro m n h
  rw [natToDec_eq, natToDec_eq] at h
  by_cases hm : m = 0 <;> by_cases hn : n = 0
  · exact hm.trans hn.symm
  · exfalso
    rw [if_pos hm, if_neg hn] at h
    have h' : (Nat.digits 10 n).map Nat.digitChar = ['0'] := by
      have h2 := congrArg List.reverse h
      simpa using h2.symm
    cases hds : Nat.digits 10 n with
    | nil => rw [hds] at h'; simp at h'
    | cons d ds =>
      rw [hds] at h'
      cases ds with
      | nil =>
        simp only [List.map_cons, List.map_nil, List.cons.injEq, and_true] at h'
        have hdlt : d < 10 :=
          Nat.digits_lt_base (by norm_num) (by rw [hds]; exact List.mem_cons_self d [])
        have hd0 : d = 0 := digitChar_inj d hdlt 0 (by norm_num) h'
        have hofd := Nat.ofDigits_digits 10 n
        rw [hds, hd0] at hofd
        simp [Nat.ofDigits] at hofd
        exact hn hofd.symm
      | cons e es => simp at h'
  · exfalso
    rw [if_neg hm, if_pos hn] at h
    have h' : (Nat.digits 10 m).map Nat.digitChar = ['0'] := by
      have h2 := congrArg List.reverse h
      simpa using h2
    cases hds : Nat.digits 10 m with
    | nil => rw [hds] at h'; simp at h'
    | cons d ds =>
      rw [hds] at h'
      cases ds with
      | nil =>
        simp only [List.map_cons, List.map_nil, List.cons.injEq, and_true] at h'
        have hdlt : d < 10 :=
          Nat.digits_lt_base (by norm_num) (by rw [hds]; exact List.mem_cons_self d [])
        have hd0 : d = 0 := digitChar_inj d hdlt 0 (by norm_num) h'
        have hofd := Nat.ofDigits_digits 10 m
        rw [hds, hd0] at hofd
        simp [Nat.ofDigits] at hofd
        exact hm hofd.symm
      | cons e es => simp at h'
  · rw [if_neg hm, if_neg hn] at h
    have h' := congrArg List.reverse h
    simp only [List.reverse_reverse] at h'
    have hds := map_digitChar_inj _ _
      (fun d hmem => Nat.digits_lt_base (by norm_num) hmem)
      (fun e hmem => Nat.digits_lt_base (by norm_num) hmem) h'
    have h2 := congrArg (Nat.ofDigits 10) hds
    rwa [Nat.ofDigits_digits, Nat.ofDigits_digits] at h2

theorem dash_not_mem_natToDec (n : Nat) : '-' ∉ natToDec n := by
  rw [natToDec_eq]
  by_cases h : n = 0
  · rw [if_pos h]; decide
  · rw [if_neg h]
    intro hmem
    rw [List.mem_reverse, List.mem_map] at hmem
    obtain ⟨d, hd, hdc⟩ := hmem
    have hdlt : d < 10 := Nat.digits_lt_base (by norm_num) hd
    have hall : ∀ x, x < 10 → Nat.digitChar x ≠ '-' := by decide
    exact hall d hdlt hdc

theorem sep_append_inj : ∀ (xs : Str), '-' ∉ xs → ∀ (ys : Str), '-' ∉ ys →
    ∀ u v : Str, xs ++ '-' :: u = ys ++ '-' :: v → xs = ys := by
  intro xs
  induction xs with
  | nil =>
    intro _ ys hys u v h
    cases ys with
    | nil => rfl
    | cons b ys' =>
      exfalso
      simp only [List.nil_append, List.cons_append, List.cons.injEq] at h
      exact hys (h.1 ▸ List.mem_cons_self b ys')
  | cons a xs ih =>
    intro hxs ys hys u v h
    cases ys with
    | nil =>
      exfalso
      simp only [List.cons_append, List.nil_append, List.cons.injEq] at h
      exact hxs (h.1 ▸ List.mem_cons_self a xs)
    | cons b ys' =>
      simp only [List.cons_append, List.cons.injEq] at h
      obtain ⟨rfl, h2⟩ := h
      rw [ih (fun hmem => hxs (List.mem_cons_of_mem a hmem)) ys'
        (fun hmem => hys (List.mem_cons_of_mem a hmem)) u v h2]

theorem mem_enumFrom_le {α : Type} :
    ∀ (l : List α) (n : Nat) (p : Nat × α), p ∈ List.enumFrom n l → n ≤ p.1 := by
  intro l
  induction l with
  | nil => intro n p h; simp [List.enumFrom] at h
  | cons a l ih =>
    intro n p h
    rcases List.mem_cons.mp h with rfl | h'
    · exact le_rfl
    · exact Nat.le_of_succ_le (ih (n + 1) p h')

theorem pairwise_enumFrom_lt {α : Type} :
    ∀ (l : List α) (n : Nat), (List.enumFrom n l).Pairwise fun a b => a.1 < b.1 := by
  intro l
  induction l with
  | nil => intro n; exact List.Pairwise.nil
  | cons a l ih =>
    intro n
    refine List.Pairwise.cons ?_ (ih (n + 1))
    intro p hp
    exact Nat.lt_of_succ_le (mem_enumFrom_le l (n + 1) p hp)

/-! ### Grouped import lemmas -/

theorem renorm_mkRow (k : Nat) (arr : List (Option Str)) :
    ((renormaliseRow (mkRowRaw k arr)).group, (renormaliseRow (mkRowRaw k arr)).text) =
      specGroupedRow arr := by
  by_cases h : arr.length ≤ 1
  · simp only [mkRowRaw, renormaliseRow, specGroupedRow, if_pos h]
    rw [normaliseGroup_default, jsTrim_idem]
  · simp only [mkRowRaw, renormaliseRow, specGroupedRow, if_neg h]
    rw [normaliseGroup_idem, normaliseGroup_jsTrim, jsTrim_idem]
    rfl

theorem groupedNormalize_enumFrom : ∀ (records : List (List (Option Str))) (k : Nat),
    ((((List.enumFrom k records).map fun p => mkRowRaw p.1 p.2).map renormaliseRow).filter
        fun r => decide (0 < r.text.length)).map (fun r => (r.group, r.text)) =
      specGroupedRows records := by
  intro records
  induction records with
  | nil => intro k; rfl
  | cons arr records ih =>
    intro k
    have hpw := renorm_mkRow k arr
    have htext : (renormaliseRow (mkRowRaw k arr)).text = (specGroupedRow arr).2 := by
      simpa using congrArg Prod.snd hpw
    have hcond : decide (0 < (renormaliseRow (mkRowRaw k arr)).text.length)
        = decide ((specGroupedRow arr).2 ≠ []) := by
      rw [htext]
      exact decide_eq_decide.mpr List.length_pos
    have hstep : List.enumFrom k (arr :: records) = (k, arr) :: List.enumFrom (k + 1) records :=
      rfl
    rw [hstep]
    simp only [List.map_cons]
    rw [show specGroupedRows (arr :: records)
        = List.filter (fun p => decide (p.2 ≠ []))
            (specGroupedRow arr :: records.map specGroupedRow) from rfl]
    rw [List.filter_cons, List.filter_cons, hcond]
    cases hb : decide ((specGroupedRow arr).2 ≠ []) with
    | false =>
      simp only [Bool.false_eq_true, if_false]
      exact ih (k + 1)
    | true =>
      simp only [if_true, List.map_cons]
      rw [hpw, ih (k + 1)]
      rfl

/-! ### Claim theorems -/

theorem strIncludes_nil (hay : Str) : strIncludes hay [] = true := by
  cases hay <;> rfl

/-- C1: the append operation satisfies the three-case contract: appending to
an empty buffer returns the new text unchanged; appending to a non-empty
buffer not ending in space/newline/tab inserts exactly one space; appending
to a non-empty buffer ending in space, newline or tab inserts no separator. -/
theorem c1_append_contract :
    (∀ s : Str, appendWithSmartSpace [] s = s) ∧
    (∀ p s : Str, p ≠ [] →
      p.getLast? ≠ some ' ' → p.getLast? ≠ some '\n' → p.getLast? ≠ some '\t' →
      appendWithSmartSpace p s = p ++ ' ' :: s) ∧
    (∀ p s : Str, p ≠ [] →
      (p.getLast? = some ' ' ∨ p.getLast? = some '\n' ∨ p.getLast? = some '\t') →
      appendWithSmartSpace p s = p ++ s) := by
  refine ⟨fun s => rfl, ?_, ?_⟩
  · intro p s hp h1 h2 h3
    have e1 : (List.getLast? p == some ' ') = false := by simp [h1]
    have e2 : (List.getLast? p == some '\n') = false := by simp [h2]
    have e3 : (List.getLast? p == some '\t') = false := by simp [h3]
    simp [appendWithSmartSpace, jsEndsWith, hp, e1, e2, e3]
  · intro p s hp h
    have e : (jsEndsWith p ' ' || jsEndsWith p '\n' || jsEndsWith p '\t') = true := by
      rcases h with h | h | h <;> simp [jsEndsWith, h]
    simp [appendWithSmartSpace, hp, e]

/-- C2: in the grouped variant, importing a sequence of raw records yields,
in original record order, one row per record where a record with at most one
cell gets the sentinel default group and its trimmed cell as text; a record
with two or more cells gets cell 0 with whitespace runs collapsed and
trimmed (sentinel default if empty) as group and trimmed cell 1 as text,
cells beyond index 1 ignored; null cells coerce to the empty string; and
rows whose text is empty after trimming are dropped.  The spec's two-record
example yields exactly its two rows. -/
theorem c2_grouped_import :
    (∀ records, (groupedNormalize records).map (fun r => (r.group, r.text))
        = specGroupedRows records) ∧
    (groupedNormalize
        [[some "GroupA".toList, some "Comment 1".toList],
         [some "GroupB".toList, some "Comment 2".toList]]).map (fun r => (r.group, r.text))
      = [("GroupA".toList, "Comment 1".toList), ("GroupB".toList, "Comment 2".toList)] := by
  constructor
  · intro records
    unfold groupedNormalize
    exact groupedNormalize_enumFrom records 0
  · decide

/-- C3 counterexample: with a single row of group "A" and text "B" and
query "ab" (group choice "ALL"), the code's recomputation hides the row
because the searchable text is the group and text joined by a space, while
the claim's predicate (plain concatenation of group and text) matches it. -/
theorem c3_filter_cex :
    applyFilters [cRow] ['a', 'b'] ALL = [] ∧
    claimedVisibleG [cRow] ['a', 'b'] ALL = [cRow] := by decide

/-- C3 amended: the grouped visible subset is exactly the rows passing the
group-equality predicate (when the choice is not "ALL") AND a
case-insensitive substring match of the TRIMMED query against the group and
text joined by a single space; the plain visible subset is exactly the
sentences passing a case-insensitive substring match of the (untrimmed)
query; conjunction semantics when both grouped filters are active. -/
theorem c3_filter_amended :
    (∀ (rows : List CommentRow) (q g : Str),
      applyFilters rows q g = rows.filter fun r =>
        (decide (g = ALL) || decide (r.group = g)) &&
          strIncludes (jsToLower (r.group ++ ' ' :: r.text)) (jsToLower (jsTrim q))) ∧
    (∀ (s : PState) (q : Str),
      (plainFilterStep s q).filtered
        = s.sentences.filter fun t => strIncludes (jsToLower t) (jsToLower q)) := by
  constructor
  · intro rows q g
    simp only [applyFilters]
    by_cases hq : jsToLower (jsTrim q) = []
    · rw [if_neg (show ¬(jsToLower (jsTrim q) ≠ []) from fun h => h hq)]
      by_cases hg : g = ALL
      · rw [if_neg (show ¬(g ≠ ALL) from fun h => h hg)]
        symm
        apply List.filter_eq_self.mpr
        intro r _
        simp [hg, hq, strIncludes_nil]
      · rw [if_pos hg]
        apply List.filter_congr
        intro r _
        simp [hg, hq, strIncludes_nil]
    · rw [if_pos hq]
      by_cases hg : g = ALL
      · rw [if_neg (show ¬(g ≠ ALL) from fun h => h hg)]
        apply List.filter_congr
        intro r _
        simp [hg]
      · rw [if_pos hg, List.filter_filter]
        apply List.filter_congr
        intro r _
        simp [hg, Bool.and_comm]
  · intro s q
    by_cases hq : q = []
    · subst hq
      show s.sentences = _
      symm
      apply List.filter_eq_self.mpr
      intro t _
      exact strIncludes_nil (jsToLower t)
    · simp only [plainFilterStep, if_neg hq]

/-- C7: in the plain variant, importing raw records yields, in original
record order, one sentence per record obtained by coercing null cells to
the empty string, joining cells with commas and trimming; sentences empty
after trimming are dropped; the spec's three-row example yields exactly
those three sentences. -/
theorem c7_plain_import :
    (∀ records, plainNormalize records
        = (records.map specPlainSentence).filter fun s => decide (s ≠ [])) ∧
    plainNormalize [[some "One".toList], [some "Two".toList], [some "Three".toList]]
      = ["One".toList, "Two".toList, "Three".toList] := by
  constructor
  · intro records
    unfold plainNormalize specPlainSentence
    rw [List.map_map]
    apply List.filter_congr
    intro s _
    exact decide_eq_decide.mpr List.length_pos
  · decide

theorem order_mk (k : Nat) (arr : List (Option Str)) :
    (renormaliseRow (mkRowRaw k arr)).order = k := by
  by_cases h : arr.length ≤ 1 <;>
    simp [mkRowRaw, renormaliseRow, h]

theorem id_shape (k : Nat) (arr : List (Option Str)) :
    ∃ rest, (renormaliseRow (mkRowRaw k arr)).id = natToDec k ++ '-' :: rest := by
  by_cases h : arr.length ≤ 1
  · refine ⟨(jsTrim (getCell arr 0)).take 24, ?_⟩
    simp [mkRowRaw, renormaliseRow, h]
  · refine ⟨(normaliseGroup (jsTrim (getCell arr 0))).take 18 ++
      '-' :: (jsTrim (getCell arr 1)).take 18, ?_⟩
    simp [mkRowRaw, renormaliseRow, h]

theorem mem_groupedNormalize {records : List (List (Option Str))} {r : CommentRow}
    (h : r ∈ groupedNormalize records) :
    ∃ p ∈ records.enum, r = renormaliseRow (mkRowRaw p.1 p.2) := by
  unfold groupedNormalize at h
  have h1 := List.mem_of_mem_filter h
  rw [List.mem_map] at h1
  obtain ⟨r0, hr0, rfl⟩ := h1
  rw [List.mem_map] at hr0
  obtain ⟨p, hp, rfl⟩ := hr0
  exact ⟨p, hp, rfl⟩

/-- C9: every grouped row id starts with the decimal record index followed
by a dash, and the ids of any single import are pairwise distinct, so
lookup of the selected row by id is unambiguous. -/
theorem c9_distinct_ids : ∀ records : List (List (Option Str)),
    (∀ r ∈ groupedNormalize records, ∃ rest, r.id = natToDec r.order ++ '-' :: rest) ∧
    (groupedNormalize records).Pairwise (fun a b => a.id ≠ b.id) := by
  intro records
  have hshape : ∀ r ∈ groupedNormalize records,
      ∃ rest, r.id = natToDec r.order ++ '-' :: rest := by
    intro r hr
    obtain ⟨p, hp, rfl⟩ := mem_groupedNormalize hr
    obtain ⟨rest, hrest⟩ := id_shape p.1 p.2
    exact ⟨rest, by rw [order_mk, hrest]⟩
  refine ⟨hshape, ?_⟩
  have h1 : (groupedNormalize records).Pairwise fun a b => a.order < b.order := by
    unfold groupedNormalize
    apply List.Pairwise.filter
    rw [List.pairwise_map, List.pairwise_map]
    refine (pairwise_enumFrom_lt records 0).imp ?_
    intro a b hab
    rw [order_mk, order_mk]
    exact hab
  refine h1.imp_of_mem ?_
  intro a b ha hb hlt heq
  obtain ⟨ra, hra⟩ := hshape a ha
  obtain ⟨rb, hrb⟩ := hshape b hb
  rw [hra, hrb] at heq
  have hdec := sep_append_inj _ (dash_not_mem_natToDec a.order) _
    (dash_not_mem_natToDec b.order) _ _ heq
  have := natToDec_inj hdec
  omega

/-- Witness for C9 at a concrete two-record import. -/
theorem c9_distinct_ids_witness :
    (∃ rest, rowAB.id = natToDec rowAB.order ++ '-' :: rest) ∧
    (groupedNormalize [[some ['A'], some ['B']], [some ['C'], some ['D']]]).Pairwise
      (fun a b => a.id ≠ b.id) :=
  ⟨(c9_distinct_ids [[some ['A'], some ['B']]]).1 rowAB (by decide),
   (c9_distinct_ids [[some ['A'], some ['B']], [some ['C'], some ['D']]]).2⟩

theorem applyFilters_subset (rows : List CommentRow) (q g : Str) :
    applyFilters rows q g ⊆ rows := by
  intro r hr
  simp only [applyFilters] at hr
  split_ifs at hr
  · exact List.mem_of_mem_filter (List.mem_of_mem_filter hr)
  · exact List.mem_of_mem_filter hr
  · exact List.mem_of_mem_filter hr
  · exact hr

theorem applyFilters_nil_all (rows : List CommentRow) : applyFilters rows [] ALL = rows := by
  simp only [applyFilters]
  rw [if_neg (show ¬(jsToLower (jsTrim ([] : Str)) ≠ []) from fun h => h rfl)]
  rw [if_neg (show ¬(ALL ≠ ALL) from fun h => h rfl)]

theorem reachable_invariant : ∀ s : GState, ReachableG s →
    s.filtered = applyFilters s.rows s.query s.selectedGroup ∧
    (∀ i, s.selectedId = some i → ∃ r, r ∈ s.filtered ∧ r.id = i) := by
  intro s h
  induction h with
  | init => exact ⟨(applyFilters_nil_all []).symm, fun i hi => Option.noConfusion hi⟩
  | importF s name res hs ih =>
    cases res with
    | readError => exact ih
    | parseException => exact ih
    | ok records =>
      by_cases hp : groupedNormalize records = []
      · simp only [importStep]
        rw [if_pos hp]
        exact ⟨(applyFilters_nil_all []).symm, fun i hi => Option.noConfusion hi⟩
      · simp only [importStep]
        rw [if_neg hp]
        exact ⟨(applyFilters_nil_all (groupedNormalize records)).symm,
          fun i hi => Option.noConfusion hi⟩
  | clear s hs ih =>
    exact ⟨(applyFilters_nil_all []).symm, fun i hi => Option.noConfusion hi⟩
  | ftext s v hs ih =>
    refine ⟨rfl, ?_⟩
    intro i hi
    show ∃ r, r ∈ applyFilters s.rows v s.selectedGroup ∧ r.id = i
    simp only [filterTextStep, applyFiltersUpd] at hi
    cases hsel : s.selectedId with
    | none => rw [hsel] at hi; exact Option.noConfusion hi
    | some j =>
      rw [hsel] at hi
      have hi' : (if (applyFilters s.rows v s.selectedGroup).any
          (fun r => decide (r.id = j)) = true then some j else none) = some i := hi
      by_cases hany :
          (applyFilters s.rows v s.selectedGroup).any (fun r => decide (r.id = j)) = true
      · rw [if_pos hany] at hi'
        injection hi' with hij
        subst hij
        obtain ⟨r, hrmem, hrdec⟩ := List.any_eq_true.mp hany
        exact ⟨r, hrmem, of_decide_eq_true hrdec⟩
      · rw [if_neg hany] at hi'
        exact Option.noConfusion hi' 
  | fgroup s v hs ih =>
    refine ⟨rfl, ?_⟩
    intro i hi
    show ∃ r, r ∈ applyFilters s.rows s.query v ∧ r.id = i
    simp only [filterGroupStep, applyFiltersUpd] at hi
    cases hsel : s.selectedId with
    | none => rw [hsel] at hi; exact Option.noConfusion hi
    | some j =>
      rw [hsel] at hi
      have hi' : (if (applyFilters s.rows s.query v).any
          (fun r => decide (r.id = j)) = true then some j else none) = some i := hi
      by_cases hany :
          (applyFilters s.rows s.query v).any (fun r => decide (r.id = j)) = true
      · rw [if_pos hany] at hi'
        injection hi' with hij
        subst hij
        obtain ⟨r, hrmem, hrdec⟩ := List.any_eq_true.mp hany
        exact ⟨r, hrmem, of_decide_eq_true hrdec⟩
      · rw [if_neg hany] at hi'
        exact Option.noConfusion hi' 
  | click s r hs hr ih =>
    refine ⟨ih.1, ?_⟩
    intro i hi
    injection hi with hij
    subst hij
    exact ⟨r, hr, rfl⟩
  | edit s v hs ih => exact ih
  | copyOk s hs ih => exact ih
  | copyFail s hs ih => exact ih
  | copyReset s hs ih => exact ih

/-- C4: in every reachable grouped state the visible subset is a subset of
the full row collection and equals the recomputation from the current
filter predicates, and a set selection refers to a row of the visible
subset; moreover a filter change (group or text) whose recomputed subset no
longer contains the selected row clears the selection and leaves the editor
buffer unchanged. -/
theorem c4_state_invariant :
    (∀ s : GState, ReachableG s →
      s.filtered ⊆ s.rows ∧
      s.filtered = applyFilters s.rows s.query s.selectedGroup ∧
      ∀ i, s.selectedId = some i → ∃ r, r ∈ s.filtered ∧ r.id = i) ∧
    (∀ (s : GState) (v i : Str), s.selectedId = some i →
      (∀ r ∈ applyFilters s.rows s.query v, r.id ≠ i) →
      (filterGroupStep s v).selectedId = none ∧
        (filterGroupStep s v).editorValue = s.editorValue) ∧
    (∀ (s : GState) (v i : Str), s.selectedId = some i →
      (∀ r ∈ applyFilters s.rows v s.selectedGroup, r.id ≠ i) →
      (filterTextStep s v).selectedId = none ∧
        (filterTextStep s v).editorValue = s.editorValue) := by
  refine ⟨?_, ?_, ?_⟩
  · intro s h
    obtain ⟨h1, h2⟩ := reachable_invariant s h
    refine ⟨?_, h1, h2⟩
    rw [h1]
    exact applyFilters_subset s.rows s.query s.selectedGroup
  · intro s v i hsel hnone
    refine ⟨?_, rfl⟩
    have hne : ¬(applyFilters s.rows s.query v).any (fun r => decide (r.id = i)) = true := by
      intro hany
      obtain ⟨r, hrm, hrd⟩ := List.any_eq_true.mp hany
      exact hnone r hrm (of_decide_eq_true hrd)
    show (match s.selectedId with
      | none => none
      | some j =>
        if (applyFilters s.rows s.query v).any (fun r => decide (r.id = j)) = true
        then some j else none) = none
    rw [hsel]
    show (if (applyFilters s.rows s.query v).any (fun r => decide (r.id = i)) = true
      then some i else none) = none
    rw [if_neg hne]
  · intro s v i hsel hnone
    refine ⟨?_, rfl⟩
    have hne : ¬(applyFilters s.rows v s.selectedGroup).any
        (fun r => decide (r.id = i)) = true := by
      intro hany
      obtain ⟨r, hrm, hrd⟩ := List.any_eq_true.mp hany
      exact hnone r hrm (of_decide_eq_true hrd)
    show (match s.selectedId with
      | none => none
      | some j =>
        if (applyFilters s.rows v s.selectedGroup).any (fun r => decide (r.id = j)) = true
        then some j else none) = none
    rw [hsel]
    show (if (applyFilters s.rows v s.selectedGroup).any (fun r => decide (r.id = i)) = true
      then some i else none) = none
    rw [if_neg hne]

/-- Witness for C4: a reachable state with an active selection. -/
theorem c4_state_invariant_witness :
    s4.filtered = applyFilters s4.rows s4.query s4.selectedGroup ∧
    (∃ r, r ∈ s4.filtered ∧ r.id = rowAB.id) :=
  have hreach : ReachableG s4 :=
    ReachableG.click s8 rowAB
      (ReachableG.importF initG fileA (.ok [[some ['A'], some ['B']]]) ReachableG.init)
      (by decide)
  ⟨(c4_state_invariant.1 s4 hreach).2.1,
   (c4_state_invariant.1 s4 hreach).2.2 rowAB.id (by decide)⟩

/-- C5 counterexample: in the plain variant, after importing, typing query
"q" and then importing a CSV that normalizes to zero rows, the outcome is
the "no usable rows" error state with an empty collection, yet the query
text still reads "q" — the filter state is NOT reset to its default. -/
theorem c5_empty_import_cex :
    s5c.error = some noSentencesMsg ∧ s5c.sentences = [] ∧ s5c.filtered = [] ∧
    s5c.query = ['q'] ∧ initP.query = [] := by decide

/-- C5 amended: an import normalizing to zero rows yields the distinct "no
usable rows" error state with an empty row collection and the selection and
editor buffer reset; the grouped variant also resets the filter state
(query and group choice), while the plain variant leaves the query text
unchanged (only the visible subset is emptied). -/
theorem c5_empty_import_amended :
    (∀ (s : GState) (name : Str) records, groupedNormalize records = [] →
      (importStep s name (.ok records)).error = some noCommentsMsg ∧
      (importStep s name (.ok records)).rows = [] ∧
      (importStep s name (.ok records)).filtered = [] ∧
      (importStep s name (.ok records)).selectedId = none ∧
      (importStep s name (.ok records)).editorValue = [] ∧
      (importStep s name (.ok records)).query = [] ∧
      (importStep s name (.ok records)).selectedGroup = ALL) ∧
    (∀ (s : PState) (name : Str) records, plainNormalize records = [] →
      (plainImportStep s name (.ok records)).error = some noSentencesMsg ∧
      (plainImportStep s name (.ok records)).sentences = [] ∧
      (plainImportStep s name (.ok records)).filtered = [] ∧
      (plainImportStep s name (.ok records)).selectedIndex = none ∧
      (plainImportStep s name (.ok records)).editorValue = [] ∧
      (plainImportStep s name (.ok records)).query = s.query) ∧
    noCommentsMsg ≠ parseFailMsg ∧ noCommentsMsg ≠ readFailMsg ∧
    noSentencesMsg ≠ parseFailMsg ∧ noSentencesMsg ≠ readFailMsg := by
  refine ⟨?_, ?_, by decide, by decide, by decide, by decide⟩
  · intro s name records hp
    simp only [importStep]
    rw [if_pos hp]
    exact ⟨rfl, rfl, rfl, rfl, rfl, rfl, rfl⟩
  · intro s name records hp
    simp only [plainImportStep]
    rw [if_pos hp]
    exact ⟨rfl, rfl, rfl, rfl, rfl, rfl⟩

/-- Witness for C5 at concrete empty imports. -/
theorem c5_empty_import_witness :
    (importStep initG fileA (.ok [[some [' ']]])).error = some noCommentsMsg ∧
    (plainImportStep s5b fileB (.ok [[some [' ']]])).query = s5b.query :=
  ⟨(c5_empty_import_amended.1 initG fileA [[some [' ']]] (by decide)).1,
   (c5_empty_import_amended.2.1 s5b fileB [[some [' ']]] (by decide)).2.2.2.2.2⟩

/-- C6 counterexample: a failing read after a successful import REPLACES
the loaded file name with the newly attempted file's name, so the prior
state is not left untouched apart from the error message. -/
theorem c6_read_error_cex :
    s6.fileName = some fileA ∧
    (importStep s6 fileB .readError).error = some readFailMsg ∧
    (importStep s6 fileB .readError).fileName = some fileB ∧
    fileB ≠ fileA := by decide

/-- C6 amended: a tokenizer failure (read error or an exception in the
complete handler) signals its distinct message and leaves the row
collection, visible subset, selection, filter state, editor buffer and
copied flag unchanged; the loaded file name, however, is set to the
attempted file's name, and the previous error is replaced. -/
theorem c6_read_error_amended :
    (∀ (s : GState) (name : Str),
      ((importStep s name .readError).error = some readFailMsg ∧
        (importStep s name .readError).fileName = some name ∧
        (importStep s name .readError).rows = s.rows ∧
        (importStep s name .readError).filtered = s.filtered ∧
        (importStep s name .readError).selectedId = s.selectedId ∧
        (importStep s name .readError).editorValue = s.editorValue ∧
        (importStep s name .readError).query = s.query ∧
        (importStep s name .readError).selectedGroup = s.selectedGroup ∧
        (importStep s name .readError).copied = s.copied) ∧
      ((importStep s name .parseException).error = some parseFailMsg ∧
        (importStep s name .parseException).fileName = some name ∧
        (importStep s name .parseException).rows = s.rows ∧
        (importStep s name .parseException).filtered = s.filtered ∧
        (importStep s name .parseException).selectedId = s.selectedId ∧
        (importStep s name .parseException).editorValue = s.editorValue ∧
        (importStep s name .parseException).query = s.query ∧
        (importStep s name .parseException).selectedGroup = s.selectedGroup ∧
        (importStep s name .parseException).copied = s.copied)) ∧
    (∀ (s : PState) (name : Str),
      ((plainImportStep s name .readError).error = some readFailMsg ∧
        (plainImportStep s name .readError).fileName = some name ∧
        (plainImportStep s name .readError).sentences = s.sentences ∧
        (plainImportStep s name .readError).filtered = s.filtered ∧
        (plainImportStep s name .readError).selectedIndex = s.selectedIndex ∧
        (plainImportStep s name .readError).editorValue = s.editorValue ∧
        (plainImportStep s name .readError).query = s.query ∧
        (plainImportStep s name .readError).copied = s.copied) ∧
      ((plainImportStep s name .parseException).error = some parseFailMsg ∧
        (plainImportStep s name .parseException).fileName = some name ∧
        (plainImportStep s name .parseException).sentences = s.sentences ∧
        (plainImportStep s name .parseException).filtered = s.filtered ∧
        (plainImportStep s name .parseException).selectedIndex = s.selectedIndex ∧
        (plainImportStep s name .parseException).editorValue = s.editorValue ∧
        (plainImportStep s name .parseException).query = s.query ∧
        (plainImportStep s name .parseException).copied = s.copied)) ∧
    readFailMsg ≠ parseFailMsg ∧ readFailMsg ≠ noCommentsMsg ∧
    readFailMsg ≠ noSentencesMsg ∧ parseFailMsg ≠ noCommentsMsg ∧
    parseFailMsg ≠ noSentencesMsg := by
  refine ⟨?_, ?_, by decide, by decide, by decide, by decide, by decide⟩
  · intro s name
    exact ⟨⟨rfl, rfl, rfl, rfl, rfl, rfl, rfl, rfl, rfl⟩,
      ⟨rfl, rfl, rfl, rfl, rfl, rfl, rfl, rfl, rfl⟩⟩
  · intro s name
    exact ⟨⟨rfl, rfl, rfl, rfl, rfl, rfl, rfl, rfl⟩,
      ⟨rfl, rfl, rfl, rfl, rfl, rfl, rfl, rfl⟩⟩

/-- C8: clicking a row of the current visible subset sets the selection to
that row's identity, appends its text to the editor buffer via the append
operation, and changes no filter state: query, group choice, row collection
and visible subset are untouched (both variants). -/
theorem c8_row_click :
    (∀ (s : GState) (r : CommentRow), r ∈ s.filtered →
      (rowClickStep s r).selectedId = some r.id ∧
      (rowClickStep s r).editorValue = appendWithSmartSpace s.editorValue r.text ∧
      (rowClickStep s r).query = s.query ∧
      (rowClickStep s r).selectedGroup = s.selectedGroup ∧
      (rowClickStep s r).rows = s.rows ∧
      (rowClickStep s r).filtered = s.filtered) ∧
    (∀ (s : PState) (idx : Nat) (h : idx < s.filtered.length),
      (plainClickStep s idx).selectedIndex = some idx ∧
      (plainClickStep s idx).editorValue
        = appendWithSmartSpace s.editorValue (s.filtered.get ⟨idx, h⟩) ∧
      (plainClickStep s idx).query = s.query ∧
      (plainClickStep s idx).sentences = s.sentences ∧
      (plainClickStep s idx).filtered = s.filtered) := by
  constructor
  · intro s r _
    exact ⟨rfl, rfl, rfl, rfl, rfl, rfl⟩
  · intro s idx h
    refine ⟨rfl, ?_, rfl, rfl, rfl⟩
    show appendWithSmartSpace s.editorValue ((s.filtered.get? idx).getD []) = _
    rw [List.get?_eq_get h]
    rfl

/-- Witness for C8 at concrete one-row states. -/
theorem c8_row_click_witness :
    (rowClickStep s8 rowAB).selectedId = some rowAB.id ∧
    (plainClickStep p8 0).selectedIndex = some 0 :=
  ⟨(c8_row_click.1 s8 rowAB (by decide)).1,
   (c8_row_click.2 p8 0 (by decide)).1⟩

/-- C10: in the grouped variant the query is trimmed before matching, so a
query of only whitespace characters yields the same visible subset as the
empty query — no text filtering is applied. -/
theorem c10_ws_query :
    ∀ (rows : List CommentRow) (g q : Str), (∀ c ∈ q, isJsWs c = true) →
      applyFilters rows q g = applyFilters rows [] g := by
  intro rows g q hq
  have ht : jsTrim q = [] := by
    unfold jsTrim
    rw [allWs_lstrip q hq]
    rfl
  simp only [applyFilters, ht, show jsTrim ([] : Str) = [] from rfl]

/-- Witness for C10 with a single-space query. -/
theorem c10_ws_query_witness :
    applyFilters [cRow] [' '] ALL = applyFilters [cRow] [] ALL :=
  c10_ws_query [cRow] ALL [' '] (by decide)

/-- Witness for C1 at concrete inputs. -/
theorem c1_append_contract_witness :
    appendWithSmartSpace ['H', 'i'] ['a'] = ['H', 'i', ' ', 'a'] ∧
    appendWithSmartSpace ['H', ' '] ['a'] = ['H', ' ', 'a'] :=
  ⟨c1_append_contract.2.1 ['H', 'i'] ['a'] (by decide) (by decide) (by decide) (by decide),
   c1_append_contract.2.2 ['H', ' '] ['a'] (by decide) (Or.inl (by decide))⟩

end Picker
